import Mathlib

/-!
Verification of the `derive-demo` code generator (src/src/lib.rs) against its
natural-language specification.  The Rust source is shallowly embedded:
character classification (`char::is_uppercase` etc.) is modelled over ASCII by
`Char.isUpper` / `Char.isLower` / `Char.isDigit`, and `char::to_lowercase` by
`Char.toLower` (the inputs of interest, Rust identifiers, are ASCII).
Aborts via `panic!` / `expect` in the Rust code are modelled with
`Except String`.
-/

namespace DeriveDemo

/-! ## Case converter: `to_snake_case` (lib.rs lines 561-588)

The Rust function folds over the characters with a one-character lag, so each
step sees (previous, current, lookahead); a final block flushes the last
character with no lookahead. -/

/-- One step of the fold in `to_snake_case`: state is
`(prev, current-not-yet-emitted, accumulated output)`, the argument is the
lookahead character. -/
def snakeStep (st : Option Char × Option Char × List Char) (next : Char) :
    Option Char × Option Char × List Char :=
  match st with
  | (prev, ch, acc) =>
    match ch with
    | some c =>
      let acc :=
        match prev with
        | some p =>
          if c.isUpper && (p.isLower || p.isDigit || (p.isUpper && next.isLower)) then
            acc ++ ['_']
          else acc
        | none => acc
      (some c, some next, acc ++ [c.toLower])
    | none => (none, some next, acc)

/-- The flush after the fold in `to_snake_case` (lib.rs lines 579-587). -/
def finalizeSnake (st : Option Char × Option Char × List Char) : List Char :=
  match st with
  | (ch, next, acc) =>
    match next with
    | some n =>
      let acc :=
        match ch with
        | some c => if (c.isLower || c.isDigit) && n.isUpper then acc ++ ['_'] else acc
        | none => acc
      acc ++ [n.toLower]
    | none => acc

/-- `to_snake_case` on a character list, exactly the source's fold. -/
def snakeList (s : List Char) : List Char :=
  finalizeSnake (s.foldl snakeStep (none, none, []))

/-- `fn to_snake_case(s: &str) -> String`. -/
def to_snake_case (s : String) : String := ⟨snakeList s.data⟩

/-! The specification's rule: insert a separator before the current character
exactly when it is uppercase and (the previous character is lowercase, or
numeric, or is uppercase with the next character lowercase); every character is
lowercased. -/

/-- The spec's separator condition at one position, given the previous and the
lookahead character. -/
def sepBefore (prev : Option Char) (c : Char) (next : Option Char) : Bool :=
  match prev with
  | none => false
  | some p =>
    c.isUpper && (p.isLower || p.isDigit ||
      (p.isUpper && (match next with | some n => n.isLower | none => false)))

/-- Straightforward positional rendering of the spec's rule. -/
def snakeRuleGo : Option Char → Char → List Char → List Char
  | prev, c, [] => (if sepBefore prev c none then ['_'] else []) ++ [c.toLower]
  | prev, c, n :: rs =>
      (if sepBefore prev c (some n) then ['_'] else []) ++ c.toLower :: snakeRuleGo (some c) n rs

/-- The case-conversion function as literally described by the spec. -/
def snake_rule : List Char → List Char
  | [] => []
  | c :: rest => snakeRuleGo none c rest

/-! ## Data model for the parsed declaration (the fragment of `syn` the source
uses).  String payloads of attribute values are re-parsed by an external lexer
(`lit_str_to_token_stream`) and, for visibility, by `syn`'s visibility parser;
both external services are passed in as function parameters (`pt`, `pv`). -/

/-- A literal, as far as the source inspects it (`syn::Lit`). -/
inductive Lit where
  | str (s : String)
  | other (descr : String)
deriving DecidableEq

/-- An expression in attribute-value position (`syn::Expr`): the source only
distinguishes string-literal expressions from everything else. -/
inductive RustExpr where
  | lit (l : Lit)
  | other (descr : String)
deriving DecidableEq

/-- `syn::Meta`.  A `list` carries the result of
`parse_args_with(Punctuated::<Meta, Comma>::parse_terminated)`: `none` when
those tokens do not parse as a comma-separated meta list. -/
inductive Meta where
  | path (segs : List String)
  | list (segs : List String) (args : Option (List Meta))
  | nameValue (segs : List String) (value : RustExpr)

/-- The path of a `syn::Meta`. -/
def Meta.pathOf : Meta → List String
  | .path s => s
  | .list s _ => s
  | .nameValue s _ => s

/-- `syn::AttrStyle`. -/
inductive AttrStyle where
  | outer
  | inner
deriving DecidableEq

/-- `syn::Attribute`, reduced to what the source reads. -/
structure Attribute where
  style : AttrStyle
  meta : Meta

/-- `fn path_to_string(path: &syn::Path) -> String` (join segments with `::`). -/
def path_to_string : List String → String
  | [] => ""
  | [s] => s
  | s :: rest => s ++ "::" ++ path_to_string rest

/-- A type expression (`syn::Type`): the source only inspects whether it is a
non-qualified path whose last segment is `PhantomData`. -/
inductive RustType where
  | path (hasQself : Bool) (segs : List String)
  | other (descr : String)
deriving DecidableEq

/-- `syn::Field`. -/
structure Field where
  ident : Option String
  ty : RustType
  attrs : List Attribute

/-- `enum FieldAttr` (lib.rs lines 371-376).  Token streams are modelled as the
strings produced by the external lexer. -/
inductive FieldAttr where
  | default
  | into
  | intoIter (ts : String)
  | value (ts : String)
deriving DecidableEq

/-- The initializer expression a field contributes, i.e. the token stream built
by `FieldAttr::as_tokens` / `FieldExt::as_init`. -/
inductive InitExpr where
  | phantom
  | param (name : String)
  | defaultCall
  | intoCall (name : String)
  | collectCall (name : String)
  | valueExpr (ts : String)
deriving DecidableEq

/-- `FieldAttr::as_tokens` (lib.rs lines 379-388). -/
def FieldAttr.as_tokens : FieldAttr → String → InitExpr
  | .default, _ => .defaultCall
  | .into, n => .intoCall n
  | .intoIter _, n => .collectCall n
  | .value s, _ => .valueExpr s

/-- The body of the `for item in list.parse_args_with(...)` loop in
`FieldAttr::parse` (lib.rs lines 415-464), folding the running `result` over
the items of one `#[Demo(..)]` attribute.  `pt` is the external lexer applied
to string payloads. -/
def parseDemoItems (pt : String → Option String) :
    Option FieldAttr → List Meta → Except String (Option FieldAttr)
  | result, [] => .ok result
  | result, item :: rest =>
    match item with
    | .path segs =>
      match segs with
      | [ident] =>
        if ident = "default" then parseDemoItems pt (some .default) rest
        else if ident = "into" then parseDemoItems pt (some .into) rest
        else .error ("Invalid #[Demo] attribute: #[Demo(" ++ path_to_string segs ++ ")]")
      | _ => .error ("Invalid #[Demo] attribute: #[Demo(" ++ path_to_string segs ++ ")]")
    | .nameValue segs v =>
      match v with
      | .lit (.str s) =>
        match pt s with
        | none => .error ("Invalid expression in #[Demo]: `" ++ s ++ "`")
        | some ts =>
          match segs with
          | [k] =>
            if k = "into_iter" then parseDemoItems pt (some (.intoIter ts)) rest
            else if k = "value" then parseDemoItems pt (some (.value ts)) rest
            else .error ("Invalid #[Demo] attribute: #[Demo(" ++ path_to_string segs ++ " = ..)]")
          | _ => .error ("Invalid #[Demo] attribute: #[Demo(" ++ path_to_string segs ++ " = ..)]")
      | _ => .error "Non-string literal value in #[Demo] attribute"
    | .list segs _ =>
      .error ("Invalid #[Demo] attribute: #[Demo(" ++ path_to_string segs ++ "(..))]")

/-- The outer `for attr in attrs` loop of `FieldAttr::parse`
(lib.rs lines 390-467), threading the running `result`. -/
def parseGo (pt : String → Option String) :
    Option FieldAttr → List Attribute → Except String (Option FieldAttr)
  | result, [] => .ok result
  | result, attr :: rest =>
    match attr.style with
    | .inner => parseGo pt result rest
    | .outer =>
      match (attr.meta.pathOf).getLast? with
      | none => .error "Expected at least one segment where #[segment[::segment*](..)]"
      | some last =>
        if last = "Demo" then
          match attr.meta with
          | .list _ args =>
            if result.isSome then .error "Expected at most one #[Demo] attribute"
            else
              match args with
              | none => .error "Invalid #[Demo] attribute: arguments do not parse"
              | some items =>
                match parseDemoItems pt result items with
                | .error e => .error e
                | .ok r => parseGo pt r rest
          | _ =>
            if attr.meta.pathOf = ["Demo"] then
              .error "Invalid #[Demo] attribute, expected #[Demo(..)]"
            else parseGo pt result rest
        else parseGo pt result rest

/-- `FieldAttr::parse` (lib.rs lines 390-467). -/
def FieldAttr.parse (pt : String → Option String) (attrs : List Attribute) :
    Except String (Option FieldAttr) :=
  parseGo pt none attrs

/-- `struct FieldExt` (lib.rs lines 470-475). -/
structure FieldExt where
  ty : RustType
  attr : Option FieldAttr
  ident : String
  named : Bool

/-- `FieldExt::new` (lib.rs lines 478-489): parse the field's attributes, take
the declared identifier for named fields and `f<index>` for positional ones. -/
def FieldExt.new (pt : String → Option String) (field : Field) (idx : Nat) (named : Bool) :
    Except String FieldExt :=
  match FieldAttr.parse pt field.attrs with
  | .error e => .error e
  | .ok attr =>
    if named then
      match field.ident with
      | some id => .ok ⟨field.ty, attr, id, named⟩
      | none => .error "called Option::unwrap on a None value"
    else .ok ⟨field.ty, attr, "f" ++ toString idx, named⟩

/-- The type test performed by `FieldExt::is_phantom_data`
(lib.rs lines 491-503): a non-qualified path type whose last segment is
`PhantomData`. -/
def isPhantomTy : RustType → Bool
  | .path false segs =>
    match segs.getLast? with
    | some s => s == "PhantomData"
    | none => false
  | _ => false

/-- `FieldExt::is_phantom_data` (lib.rs lines 491-503). -/
def FieldExt.is_phantom_data (fe : FieldExt) : Bool :=
  isPhantomTy fe.ty

/-- The parameter type of a generated constructor argument, i.e. the three
token-stream templates of `FieldExt::as_arg`. -/
inductive ArgTy where
  | plain (ty : RustType)
  | intoTy (ty : RustType)
  | intoIterTy (item : String)
deriving DecidableEq

/-- One generated constructor parameter. -/
structure Arg where
  ident : String
  ty : ArgTy
deriving DecidableEq

/-- `FieldExt::as_arg` (lib.rs lines 505-522). -/
def FieldExt.as_arg (fe : FieldExt) : Option Arg :=
  if fe.is_phantom_data then none
  else
    match fe.attr with
    | some .default => none
    | some .into => some ⟨fe.ident, .intoTy fe.ty⟩
    | some (.intoIter s) => some ⟨fe.ident, .intoIterTy s⟩
    | some (.value _) => none
    | none => some ⟨fe.ident, .plain fe.ty⟩

/-- One field initializer as emitted by `FieldExt::as_init`. -/
structure Init where
  named : Bool
  fieldName : String
  expr : InitExpr
deriving DecidableEq

/-- `FieldExt::as_init` (lib.rs lines 524-539). -/
def FieldExt.as_init (fe : FieldExt) : Init :=
  let e :=
    if fe.is_phantom_data then InitExpr.phantom
    else
      match fe.attr with
      | none => InitExpr.param fe.ident
      | some a => a.as_tokens fe.ident
  ⟨fe.named, fe.ident, e⟩

/-- Generated constructor visibility (`syn::Visibility`). -/
inductive Visibility where
  | public
  | restricted (path : String)
  | inherited
deriving DecidableEq

/-- `struct DemoOptions` (lib.rs lines 336-338). -/
structure DemoOptions where
  visibility : Option Visibility
deriving DecidableEq

/-- The `parse_nested_meta` callback loop in `DemoOptions::from_attributes`
(lib.rs lines 349-362), over the items of one `#[Demo(..)]` attribute.
A callback error stops processing the remaining items but is swallowed by the
`unwrap_or(())` in the caller, so it yields `.ok` with the state reached so
far; only the `expect("Invalid visibility")` abort is fatal.  `pv` is the
external visibility parser. -/
def processTypeItems (pv : String → Option Visibility) :
    Option Visibility → List Meta → Except String (Option Visibility)
  | vis, [] => .ok vis
  | vis, item :: rest =>
    match item with
    | .nameValue segs (.lit (.str s)) =>
      if segs = ["visibility"] then
        match pv s with
        | some v => processTypeItems pv (some v) rest
        | none => .error "Invalid visibility"
      else .ok vis
    | .nameValue segs (.lit _) =>
      if segs = ["visibility"] then processTypeItems pv vis rest
      else .ok vis
    | _ => .ok vis

/-- The `for attr in attrs` loop of `DemoOptions::from_attributes`
(lib.rs lines 347-365). -/
def fromAttributesGo (pv : String → Option Visibility) :
    Option Visibility → List Attribute → Except String DemoOptions
  | vis, [] => .ok ⟨vis⟩
  | vis, attr :: rest =>
    if attr.meta.pathOf = ["Demo"] then
      match attr.meta with
      | .list _ (some items) =>
        match processTypeItems pv vis items with
        | .ok vis2 => fromAttributesGo pv vis2 rest
        | .error e => .error e
      | _ => fromAttributesGo pv vis rest
    else fromAttributesGo pv vis rest

/-- `DemoOptions::from_attributes` (lib.rs lines 340-368): default visibility
is `pub`. -/
def DemoOptions.from_attributes (pv : String → Option Visibility) (attrs : List Attribute) :
    Except String DemoOptions :=
  fromAttributesGo pv (some .public) attrs

/-- `is_lint` inside `collect_parent_lint_attrs` (lib.rs lines 305-314). -/
def is_lint : Meta → Bool
  | .list segs _ =>
    segs == ["allow"] || segs == ["deny"] || segs == ["forbid"] || segs == ["warn"]
  | _ => false

/-- `is_cfg_attr_lint` inside `collect_parent_lint_attrs`
(lib.rs lines 316-327). -/
def is_cfg_attr_lint : Meta → Bool
  | .list segs (some nested) =>
    segs == ["cfg_attr"] &&
      (match nested with
       | [_, second] => is_lint second
       | _ => false)
  | _ => false

/-- `collect_parent_lint_attrs` (lib.rs lines 304-334). -/
def collect_parent_lint_attrs (attrs : List Attribute) : List Attribute :=
  attrs.filter (fun a => is_lint a.meta || is_cfg_attr_lint a.meta)

/-- The slice of `syn::DeriveInput` the source reads: name, attributes and the
generic signature (carried verbatim, modelled opaquely). -/
structure DeriveInput where
  ident : String
  attrs : List Attribute
  generics : String

/-- The construction expression shape: no delimiters, braced named list, or
parenthesized positional list. -/
inductive InitBody where
  | unitBody
  | namedBody (inits : List Init)
  | posBody (inits : List Init)
deriving DecidableEq

/-- The generated `impl` block with its single constructor, i.e. the structured
content of the final `my_quote!` in `demo_impl` (lib.rs lines 293-301). -/
structure GeneratedImpl where
  typeName : String
  generics : String
  doc : String
  lintAttrs : List Attribute
  vis : Option Visibility
  fnName : String
  args : List Arg
  qual : Option String
  body : InitBody

/-- The `fields.iter().enumerate().map(FieldExt::new).collect()` step of
`demo_impl` (lib.rs lines 258-263); aborts propagate in iteration order. -/
def buildExts (pt : String → Option String) (named : Bool) :
    Nat → List Field → Except String (List FieldExt)
  | _, [] => .ok []
  | i, f :: rest =>
    match FieldExt.new pt f i named with
    | .error e => .error e
    | .ok fe =>
      match buildExts pt named (i + 1) rest with
      | .error e => .error e
      | .ok fes => .ok (fe :: fes)

/-- `demo_impl` (lib.rs lines 248-302). -/
def demo_impl (pt : String → Option String) (ast : DeriveInput)
    (fields : Option (List Field)) (named : Bool) (variant : Option String)
    (options : DemoOptions) : Except String GeneratedImpl :=
  let unit := fields.isNone
  let fs := fields.getD []
  match buildExts pt named 0 fs with
  | .error e => .error e
  | .ok exts =>
    let args := exts.filterMap FieldExt.as_arg
    let inits := exts.map FieldExt.as_init
    let body :=
      if unit then InitBody.unitBody
      else if named then InitBody.namedBody inits
      else InitBody.posBody inits
    let nameQualDoc :=
      match variant with
      | none => ("demo", (none : Option String), "Constructs a demo `" ++ ast.ident ++ "`.")
      | some v =>
        ("demo_" ++ to_snake_case v, some v,
          "Constructs a demo `" ++ ast.ident ++ "::" ++ v ++ "`.")
    .ok
      { typeName := ast.ident
        generics := ast.generics
        doc := nameQualDoc.2.2
        lintAttrs := collect_parent_lint_attrs ast.attrs
        vis := options.visibility
        fnName := nameQualDoc.1
        args := args
        qual := nameQualDoc.2.1
        body := body }

/-- `syn::Fields`. -/
inductive Fields where
  | namedFields (fs : List Field)
  | unit
  | unnamedFields (fs : List Field)

/-- `demo_for_struct` (lib.rs lines 214-229). -/
def demo_for_struct (pt : String → Option String) (ast : DeriveInput) (fields : Fields)
    (variant : Option String) (options : DemoOptions) : Except String GeneratedImpl :=
  match fields with
  | .namedFields fs => demo_impl pt ast (some fs) true variant options
  | .unit => demo_impl pt ast none false variant options
  | .unnamedFields fs => demo_impl pt ast (some fs) false variant options

/-- One `syn::Variant`: the source only reads the name, the field list and
whether an explicit discriminant is present. -/
structure Variant where
  ident : String
  fields : Fields
  hasDiscriminant : Bool

/-- The per-variant loop of `demo_for_enum` (lib.rs lines 239-244), consumed in
order by the final splice. -/
def buildEnum (pt : String → Option String) (ast : DeriveInput) (options : DemoOptions) :
    List Variant → Except String (List GeneratedImpl)
  | [] => .ok []
  | v :: rest =>
    if v.hasDiscriminant then
      .error "#[derive(Demo)] cannot be implemented for enums with discriminants"
    else
      match demo_for_struct pt ast v.fields (some v.ident) options with
      | .error e => .error e
      | .ok g =>
        match buildEnum pt ast options rest with
        | .error e => .error e
        | .ok gs => .ok (g :: gs)

/-- `demo_for_enum` (lib.rs lines 231-246). -/
def demo_for_enum (pt : String → Option String) (ast : DeriveInput)
    (variants : List Variant) (options : DemoOptions) : Except String (List GeneratedImpl) :=
  if variants.isEmpty then
    .error "#[derive(Demo)] cannot be implemented for enums with zero variants"
  else buildEnum pt ast options variants

/-- `syn::Data`, as matched by the entry point. -/
inductive Data where
  | enumData (variants : List Variant)
  | structData (fields : Fields)
  | unionData

/-- The `derive` entry point (lib.rs lines 202-212). -/
def derive (pv : String → Option Visibility) (pt : String → Option String)
    (ast : DeriveInput) (data : Data) : Except String (List GeneratedImpl) :=
  match DemoOptions.from_attributes pv ast.attrs with
  | .error e => .error e
  | .ok options =>
    match data with
    | .enumData vs => demo_for_enum pt ast vs options
    | .structData fs =>
      match demo_for_struct pt ast fs none options with
      | .error e => .error e
      | .ok g => .ok [g]
    | .unionData => .error "doesn't work with unions yet"

/-! ## Specification-side derived notions and test fixtures -/

/-- Whether a field's configuration keeps it out of the parameter list
(`Default` and `Value` are omitted, spec section 4.5). -/
def attrOmitsParam : Option FieldAttr → Bool
  | some .default => true
  | some (.value _) => true
  | _ => false

/-- The spec's characterisation of a parameter field: neither of
placeholder-marker type nor configured `Default` or `Value`. -/
def FieldExt.isParamField (fe : FieldExt) : Bool :=
  !fe.is_phantom_data && !attrOmitsParam fe.attr

/-- The parameter a parameter field contributes (the types of spec
section 4.3). -/
def FieldExt.paramOf (fe : FieldExt) : Arg :=
  match fe.attr with
  | some .into => ⟨fe.ident, .intoTy fe.ty⟩
  | some (.intoIter s) => ⟨fe.ident, .intoIterTy s⟩
  | _ => ⟨fe.ident, .plain fe.ty⟩

/-- The configuration a single well-formed `#[Demo(..)]` item denotes, `none`
for ill-formed items. -/
def itemConfig (pt : String → Option String) : Meta → Option FieldAttr
  | .path [x] =>
    if x = "default" then some .default
    else if x = "into" then some .into
    else none
  | .nameValue [k] (.lit (.str s)) =>
    if k = "into_iter" then (pt s).map FieldAttr.intoIter
    else if k = "value" then (pt s).map FieldAttr.value
    else none
  | _ => none

/-- An outer `#[Demo(..)]` attribute with the given parsed items. -/
def demoListAttr (items : List Meta) : Attribute :=
  ⟨.outer, .list ["Demo"] (some items)⟩

/-- An outer `#[Demo(visibility = "s")]` attribute. -/
def demoVisAttr (s : String) : Attribute :=
  ⟨.outer, .list ["Demo"] (some [.nameValue ["visibility"] (.lit (.str s))])⟩

/-- A positional field carrying an ill-formed `#[Demo(nope)]` attribute. -/
def badAttrField : Field :=
  ⟨none, .other "i32", [demoListAttr [Meta.path ["nope"]]]⟩

/-- A discriminant-free tuple variant whose field has an ill-formed `#[Demo]`
attribute. -/
def badAttrVariant : Variant :=
  ⟨"A", .unnamedFields [badAttrField], false⟩

/-- A discriminant-free unit variant. -/
def unitVariant : Variant :=
  ⟨"A", Fields.unit, false⟩

/-! ## Helper lemmas -/

theorem finalize_foldl_snakeStep (l : List Char) :
    ∀ (prev : Option Char) (c : Char) (acc : List Char),
      finalizeSnake (l.foldl snakeStep (prev, some c, acc)) = acc ++ snakeRuleGo prev c l := by
  induction l with
  | nil =>
    intro prev c acc
    cases prev with
    | none => simp [finalizeSnake, snakeRuleGo, sepBefore]
    | some p =>
      simp only [List.foldl_nil, finalizeSnake, snakeRuleGo, sepBefore, Bool.and_false,
        Bool.or_false]
      rw [Bool.and_comm]
      split_ifs <;> simp
  | cons x xs ih =>
    intro prev c acc
    have hstep : List.foldl snakeStep (prev, some c, acc) (x :: xs)
        = List.foldl snakeStep (snakeStep (prev, some c, acc) x) xs := rfl
    rw [hstep]
    cases prev with
    | none =>
      simp only [snakeStep]
      rw [ih]
      simp [snakeRuleGo, sepBefore]
    | some p =>
      simp only [snakeStep]
      rw [ih]
      simp only [snakeRuleGo, sepBefore]
      split_ifs <;> simp

theorem as_arg_eq (fe : FieldExt) :
    fe.as_arg = if fe.isParamField then some fe.paramOf else none := by
  cases hp : fe.is_phantom_data
  · cases h : fe.attr with
    | none =>
      simp [FieldExt.as_arg, FieldExt.isParamField, FieldExt.paramOf, attrOmitsParam, hp, h]
    | some a =>
      cases a <;>
        simp [FieldExt.as_arg, FieldExt.isParamField, FieldExt.paramOf, attrOmitsParam, hp, h]
  · simp [FieldExt.as_arg, FieldExt.isParamField, attrOmitsParam, hp]

theorem filterMap_as_arg (l : List FieldExt) :
    l.filterMap FieldExt.as_arg = (l.filter FieldExt.isParamField).map FieldExt.paramOf := by
  induction l with
  | nil => rfl
  | cons fe rest ih =>
    cases h : fe.isParamField <;>
      simp [List.filterMap_cons, List.filter_cons, as_arg_eq, h, ih]

theorem buildExts_ok (pt : String → Option String) (named : Bool) :
    ∀ (fs : List Field) (i : Nat) (exts : List FieldExt),
      buildExts pt named i fs = .ok exts →
      exts.length = fs.length ∧
        ∀ k (hk : k < fs.length) (hk' : k < exts.length),
          FieldExt.new pt (fs.get ⟨k, hk⟩) (i + k) named = .ok (exts.get ⟨k, hk'⟩) := by
  intro fs
  induction fs with
  | nil =>
    intro i exts h
    simp [buildExts] at h
    subst h
    exact ⟨rfl, fun k hk _ => absurd hk (Nat.not_lt_zero k)⟩
  | cons f rest ih =>
    intro i exts h
    cases hn : FieldExt.new pt f i named with
    | error e => simp [buildExts, hn] at h
    | ok fe =>
      cases hr : buildExts pt named (i + 1) rest with
      | error e => simp [buildExts, hn, hr] at h
      | ok fes =>
        simp [buildExts, hn, hr] at h
        subst h
        obtain ⟨hl, hp⟩ := ih (i + 1) fes hr
        refine ⟨by simp [hl], ?_⟩
        intro k hk hk'
        cases k with
        | zero => simpa using hn
        | succ k =>
          have hh := hp k (Nat.lt_of_succ_lt_succ hk) (Nat.lt_of_succ_lt_succ hk')
          have hix : i + (k + 1) = i + 1 + k := by omega
          rw [hix]
          simpa using hh

theorem buildEnum_ok (pt : String → Option String) (ast : DeriveInput) (options : DemoOptions) :
    ∀ (vs : List Variant) (gs : List GeneratedImpl),
      buildEnum pt ast options vs = .ok gs →
      gs.length = vs.length ∧
        ∀ k (hk : k < vs.length) (hk' : k < gs.length),
          (vs.get ⟨k, hk⟩).hasDiscriminant = false ∧
          demo_for_struct pt ast ((vs.get ⟨k, hk⟩).fields) (some ((vs.get ⟨k, hk⟩).ident))
              options = .ok (gs.get ⟨k, hk'⟩) := by
  intro vs
  induction vs with
  | nil =>
    intro gs h
    simp [buildEnum] at h
    subst h
    exact ⟨rfl, fun k hk _ => absurd hk (Nat.not_lt_zero k)⟩
  | cons v rest ih =>
    intro gs h
    cases hd : v.hasDiscriminant with
    | true => simp [buildEnum, hd] at h
    | false =>
      cases hs : demo_for_struct pt ast v.fields (some v.ident) options with
      | error e => simp [buildEnum, hd, hs] at h
      | ok g =>
        cases hr : buildEnum pt ast options rest with
        | error e => simp [buildEnum, hd, hs, hr] at h
        | ok gs2 =>
          simp [buildEnum, hd, hs, hr] at h
          subst h
          obtain ⟨hlen, hrest⟩ := ih gs2 hr
          refine ⟨by simp [hlen], ?_⟩
          intro k hk hk'
          cases k with
          | zero => exact ⟨hd, hs⟩
          | succ k =>
            have hh := hrest k (Nat.lt_of_succ_lt_succ hk) (Nat.lt_of_succ_lt_succ hk')
            simpa using hh

theorem parseGo_cons (pt : String → Option String) (res : Option FieldAttr)
    (a : Attribute) (rest : List Attribute) :
    parseGo pt res (a :: rest) =
      match parseGo pt res [a] with
      | .error e => .error e
      | .ok r => parseGo pt r rest := by
  cases a with
  | mk style meta =>
    cases style with
    | inner => simp [parseGo]
    | outer =>
      cases hl : meta.pathOf.getLast? with
      | none => simp [parseGo, hl]
      | some last =>
        by_cases hd : last = "Demo"
        · cases meta with
          | list segs args =>
            cases hres : res.isSome
            · cases args with
              | none => simp [parseGo, hl, hd, hres]
              | some items =>
                cases hi : parseDemoItems pt res items with
                | error e => simp [parseGo, hl, hd, hres, hi]
                | ok r => simp [parseGo, hl, hd, hres, hi]
            · simp [parseGo, hl, hd, hres]
          | path segs =>
            by_cases hp : Meta.pathOf (Meta.path segs) = ["Demo"]
            · simp [parseGo, hl, hd, hp]
            · simp [parseGo, hl, hd, hp]
          | nameValue segs v =>
            by_cases hp : Meta.pathOf (Meta.nameValue segs v) = ["Demo"]
            · simp [parseGo, hl, hd, hp]
            · simp [parseGo, hl, hd, hp]
        · simp [parseGo, hl, hd]

theorem parseDemoItems_step (pt : String → Option String) (res : Option FieldAttr)
    (it : Meta) (rest : List Meta) (h : (itemConfig pt it).isSome = true) :
    parseDemoItems pt res (it :: rest) = parseDemoItems pt (itemConfig pt it) rest := by
  cases it with
  | path segs =>
    cases segs with
    | nil => simp [itemConfig] at h
    | cons x tail =>
      cases tail with
      | nil =>
        by_cases hx : x = "default"
        · simp [parseDemoItems, itemConfig, hx]
        · by_cases hx2 : x = "into"
          · simp [parseDemoItems, itemConfig, hx, hx2]
          · simp [itemConfig, hx, hx2] at h
      | cons y t2 => simp [itemConfig] at h
  | nameValue segs v =>
    cases v with
    | lit l =>
      cases l with
      | str s =>
        cases segs with
        | nil => simp [itemConfig] at h
        | cons k tail =>
          cases tail with
          | nil =>
            by_cases hk : k = "into_iter"
            · cases hpt : pt s with
              | none => simp [itemConfig, hk, hpt] at h
              | some ts => simp [parseDemoItems, itemConfig, hk, hpt]
            · by_cases hk2 : k = "value"
              · cases hpt : pt s with
                | none => simp [itemConfig, hk, hk2, hpt] at h
                | some ts => simp [parseDemoItems, itemConfig, hk, hk2, hpt]
              · simp [itemConfig, hk, hk2] at h
          | cons z t2 => simp [itemConfig] at h
      | other d => simp [itemConfig] at h
    | other d => simp [itemConfig] at h
  | list segs args => simp [itemConfig] at h

theorem fromAttributesGo_skip (pv : String → Option Visibility) :
    ∀ (attrs : List Attribute) (vis : Option Visibility),
      (∀ a ∈ attrs, a.meta.pathOf ≠ ["Demo"]) →
      fromAttributesGo pv vis attrs = .ok ⟨vis⟩ := by
  intro attrs
  induction attrs with
  | nil => intro vis _; rfl
  | cons a rest ih =>
    intro vis h
    have ha := h a (List.mem_cons_self a rest)
    simp only [fromAttributesGo, ha, if_false]
    exact ih vis (fun b hb => h b (List.mem_cons_of_mem a hb))

theorem demo_impl_ok (pt : String → Option String) (ast : DeriveInput)
    (fields : Option (List Field)) (named : Bool) (variant : Option String)
    (options : DemoOptions) (exts : List FieldExt)
    (hb : buildExts pt named 0 (fields.getD []) = .ok exts) :
    demo_impl pt ast fields named variant options = .ok
      { typeName := ast.ident
        generics := ast.generics
        doc := (match variant with
          | none => "Constructs a demo `" ++ ast.ident ++ "`."
          | some v => "Constructs a demo `" ++ ast.ident ++ "::" ++ v ++ "`.")
        lintAttrs := collect_parent_lint_attrs ast.attrs
        vis := options.visibility
        fnName := (match variant with
          | none => "demo"
          | some v => "demo_" ++ to_snake_case v)
        args := exts.filterMap FieldExt.as_arg
        qual := variant
        body :=
          if fields.isNone then InitBody.unitBody
          else if named then InitBody.namedBody (exts.map FieldExt.as_init)
          else InitBody.posBody (exts.map FieldExt.as_init) } := by
  simp only [demo_impl]
  rw [hb]
  cases variant <;> rfl

theorem demo_impl_err (pt : String → Option String) (ast : DeriveInput)
    (fields : Option (List Field)) (named : Bool) (variant : Option String)
    (options : DemoOptions) (e : String)
    (hb : buildExts pt named 0 (fields.getD []) = .error e) :
    demo_impl pt ast fields named variant options = .error e := by
  simp only [demo_impl]
  rw [hb]

/-! ## The claims -/

/-- C2: the case converter inserts an underscore before a character exactly
when that character is uppercase and the previous one is lowercase, or
numeric, or uppercase with the next character lowercase (no lookahead exists
for the final character), and lowercases every character — i.e. it coincides
with the direct rendering of that rule — and it maps every entry of the
spec's literal table to its listed output. -/
theorem c2_to_snake_case :
    (∀ s : List Char, snakeList s = snake_rule s) ∧
    (to_snake_case "" = "" ∧ to_snake_case "a" = "a" ∧ to_snake_case "B" = "b" ∧
     to_snake_case "BC" = "bc" ∧ to_snake_case "Bc" = "bc" ∧ to_snake_case "bC" = "b_c" ∧
     to_snake_case "CARGO" = "cargo" ∧ to_snake_case "_Hello" = "_hello" ∧
     to_snake_case "QuxBaz" = "qux_baz" ∧ to_snake_case "FreeBSD" = "free_bsd" ∧
     to_snake_case "specialK" = "special_k" ∧ to_snake_case "hello1World" = "hello1_world" ∧
     to_snake_case "ThisISNotADrill" = "this_is_not_a_drill") := by
  constructor
  · intro s
    cases s with
    | nil => rfl
    | cons c rest =>
      have h : snakeList (c :: rest)
          = finalizeSnake (List.foldl snakeStep (none, some c, []) rest) := rfl
      rw [h, finalize_foldl_snakeStep]
      rfl
  · refine ⟨?_, ?_, ?_, ?_, ?_, ?_, ?_, ?_, ?_, ?_, ?_, ?_, ?_⟩ <;> decide

/-- C1: the generated constructor's parameter list consists of exactly those
fields that are neither configured `Default` nor `Value` nor of
placeholder-marker type, one parameter each, in declaration order (the
filtered sublist of the classified fields); in particular with no
configuration and no marker field there are exactly N parameters, the k-th
typed by the k-th field's declared type. -/
theorem c1_parameter_list :
    (∀ pt ast fs named variant options exts,
        buildExts pt named 0 fs = .ok exts →
        (demo_impl pt ast (some fs) named variant options).map GeneratedImpl.args
          = .ok ((exts.filter FieldExt.isParamField).map FieldExt.paramOf)) ∧
    (∀ pt ast fs named variant options g,
        (∀ f ∈ fs, FieldAttr.parse pt f.attrs = .ok none) →
        (∀ f ∈ fs, isPhantomTy f.ty = false) →
        (named = true → ∀ f ∈ fs, f.ident.isSome = true) →
        demo_impl pt ast (some fs) named variant options = .ok g →
        g.args.length = fs.length ∧
          ∀ k (hk : k < fs.length) (hk' : k < g.args.length),
            (g.args.get ⟨k, hk'⟩).ty = ArgTy.plain ((fs.get ⟨k, hk⟩).ty)) := by
  constructor
  · intro pt ast fs named variant options exts hb
    rw [demo_impl_ok pt ast (some fs) named variant options exts hb]
    simp [Except.map, filterMap_as_arg]
  · intro pt ast fs named variant options g hparse hphantom hident h
    cases hb : buildExts pt named 0 fs with
    | error e =>
      rw [demo_impl_err pt ast (some fs) named variant options e hb] at h
      exact absurd h (by simp)
    | ok exts =>
      rw [demo_impl_ok pt ast (some fs) named variant options exts hb] at h
      injection h with h
      subst h
      obtain ⟨hlen, hpt⟩ := buildExts_ok pt named fs 0 exts hb
      have hext : ∀ k (hk : k < fs.length) (hk' : k < exts.length),
          (exts.get ⟨k, hk'⟩).attr = none ∧ (exts.get ⟨k, hk'⟩).ty = (fs.get ⟨k, hk⟩).ty := by
        intro k hk hk'
        have hnew := hpt k hk hk'
        have hf := hparse _ (List.get_mem fs k hk)
        unfold FieldExt.new at hnew
        rw [hf] at hnew
        cases hnm : named with
        | false =>
          rw [hnm] at hnew
          simp only [Bool.false_eq_true, if_false, Except.ok.injEq] at hnew
          rw [← hnew]
          exact ⟨rfl, rfl⟩
        | true =>
          rw [hnm] at hnew
          cases hidk : (fs.get ⟨k, hk⟩).ident with
          | none =>
            have hsome := hident hnm _ (List.get_mem fs k hk)
            rw [hidk] at hsome
            simp at hsome
          | some idv =>
            rw [hidk] at hnew
            simp only [if_true, Except.ok.injEq] at hnew
            rw [← hnew]
            exact ⟨rfl, rfl⟩
      have hallp : ∀ ext ∈ exts, FieldExt.isParamField ext = true := by
        intro ext hmem
        obtain ⟨n, hgn⟩ := List.mem_iff_get.mp hmem
        obtain ⟨k, hk'⟩ := n
        have hk : k < fs.length := hlen ▸ hk'
        obtain ⟨ha, hty⟩ := hext k hk hk'
        rw [← hgn]
        have hph : FieldExt.is_phantom_data (exts.get ⟨k, hk'⟩) = false := by
          show isPhantomTy (exts.get ⟨k, hk'⟩).ty = false
          rw [hty]
          exact hphantom _ (List.get_mem fs k hk)
        have hao : attrOmitsParam (exts.get ⟨k, hk'⟩).attr = false := by
          rw [ha]
          rfl
        simp only [List.get_eq_getElem] at hph hao
        simp [FieldExt.isParamField, hph, hao]
      have hargs : exts.filterMap FieldExt.as_arg = exts.map FieldExt.paramOf := by
        rw [filterMap_as_arg, List.filter_eq_self.mpr hallp]
      constructor
      · show (exts.filterMap FieldExt.as_arg).length = fs.length
        rw [hargs, List.length_map, hlen]
      · intro k hk hk'
        have hk2 : k < exts.length := by omega
        obtain ⟨ha, hty⟩ := hext k hk hk2
        show ((exts.filterMap FieldExt.as_arg).get ⟨k, hk'⟩).ty
          = ArgTy.plain ((fs.get ⟨k, hk⟩).ty)
        rw [List.get_of_eq hargs]
        simp only [List.get_eq_getElem] at ha hty
        simp [List.get_map, FieldExt.paramOf, ha, hty]

/-- C1 witness: a two-field positional struct with no configuration yields a
two-parameter constructor in declaration order. -/
theorem c1_witness :
    (demo_impl (fun _ => none) ⟨"Bar", [], ""⟩
        (some [⟨none, RustType.other "i32", []⟩, ⟨none, RustType.other "String", []⟩])
        false none ⟨some Visibility.public⟩).map GeneratedImpl.args
      = .ok [⟨"f0", ArgTy.plain (RustType.other "i32")⟩,
             ⟨"f1", ArgTy.plain (RustType.other "String")⟩] ∧
    ([⟨"f0", ArgTy.plain (RustType.other "i32")⟩,
      ⟨"f1", ArgTy.plain (RustType.other "String")⟩] : List Arg).length
      = ([⟨none, RustType.other "i32", []⟩, ⟨none, RustType.other "String", []⟩] :
          List Field).length := by
  constructor
  · exact c1_parameter_list.1 (fun _ => none) ⟨"Bar", [], ""⟩
      [⟨none, RustType.other "i32", []⟩, ⟨none, RustType.other "String", []⟩] false none
      ⟨some Visibility.public⟩
      [⟨RustType.other "i32", none, "f0", false⟩, ⟨RustType.other "String", none, "f1", false⟩]
      rfl
  · have h := (c1_parameter_list.2 (fun _ => none) ⟨"Bar", [], ""⟩
      [⟨none, RustType.other "i32", []⟩, ⟨none, RustType.other "String", []⟩] false none
      ⟨some Visibility.public⟩
      { typeName := "Bar", generics := "", doc := "Constructs a demo `Bar`.",
        lintAttrs := [], vis := some Visibility.public, fnName := "demo",
        args := [⟨"f0", ArgTy.plain (RustType.other "i32")⟩,
                 ⟨"f1", ArgTy.plain (RustType.other "String")⟩],
        qual := none,
        body := InitBody.posBody
          [⟨false, "f0", InitExpr.param "f0"⟩, ⟨false, "f1", InitExpr.param "f1"⟩] }
      (by
        intro f hf
        cases hf with
        | head => rfl
        | tail _ hf =>
          cases hf with
          | head => rfl
          | tail _ hf => cases hf)
      (by
        intro f hf
        cases hf with
        | head => rfl
        | tail _ hf =>
          cases hf with
          | head => rfl
          | tail _ hf => cases hf)
      (by intro hcon; cases hcon)
      rfl).1
    exact h

/-- C3: the generated constructor is named `demo` for a struct and
`demo_<snake-cased variant name>` for an enum variant; in particular the
enum `Fizz { ThisISNotADrill, BiteMe }` yields `demo_this_is_not_a_drill`
and `demo_bite_me`. -/
theorem c3_constructor_name :
    (∀ pt ast fields named variant options g,
        demo_impl pt ast fields named variant options = .ok g →
        g.fnName = (match variant with
          | none => "demo"
          | some v => "demo_" ++ to_snake_case v)) ∧
    (∀ pt ast options,
        (demo_for_enum pt ast
            [⟨"ThisISNotADrill", Fields.unit, false⟩, ⟨"BiteMe", Fields.unit, false⟩]
            options).map (List.map GeneratedImpl.fnName)
          = .ok ["demo_this_is_not_a_drill", "demo_bite_me"]) := by
  constructor
  · intro pt ast fields named variant options g h
    cases hb : buildExts pt named 0 (fields.getD []) with
    | error e =>
      rw [demo_impl_err pt ast fields named variant options e hb] at h
      exact absurd h (by simp)
    | ok exts =>
      rw [demo_impl_ok pt ast fields named variant options exts hb] at h
      injection h with h
      subst h
      rfl
  · intro pt ast options
    rfl

/-- C3 witness: a unit enum variant named `ThisISNotADrill` gets constructor
name `demo_this_is_not_a_drill`. -/
theorem c3_witness :
    GeneratedImpl.fnName
      { typeName := "Fizz", generics := "", doc := "Constructs a demo `Fizz::ThisISNotADrill`.",
        lintAttrs := [], vis := some Visibility.public,
        fnName := "demo_" ++ to_snake_case "ThisISNotADrill", args := [],
        qual := some "ThisISNotADrill", body := InitBody.unitBody }
      = "demo_this_is_not_a_drill" := by
  have h := c3_constructor_name.1 (fun _ => none) ⟨"Fizz", [], ""⟩ none false
      (some "ThisISNotADrill") ⟨some Visibility.public⟩
      { typeName := "Fizz", generics := "", doc := "Constructs a demo `Fizz::ThisISNotADrill`.",
        lintAttrs := [], vis := some Visibility.public,
        fnName := "demo_" ++ to_snake_case "ThisISNotADrill", args := [],
        qual := some "ThisISNotADrill", body := InitBody.unitBody } rfl
  exact h

/-- C4: a field whose declared type is the placeholder-marker type contributes
no constructor parameter, and its initializer is the placeholder-marker
construction, whatever its parsed configuration is. -/
theorem c4_phantom_field :
    ∀ (fe : FieldExt), fe.is_phantom_data = true →
      fe.as_arg = none ∧ (FieldExt.as_init fe).expr = InitExpr.phantom := by
  intro fe h
  constructor
  · simp [FieldExt.as_arg, h]
  · simp [FieldExt.as_init, h]

/-- C4 witness: a `PhantomData` field configured `#[Demo(default)]` still
yields no parameter and the marker initializer. -/
theorem c4_witness :
    FieldExt.as_arg ⟨.path false ["core", "marker", "PhantomData"], some .default, "x", true⟩
      = none ∧
    (FieldExt.as_init
        ⟨.path false ["core", "marker", "PhantomData"], some .default, "x", true⟩).expr
      = InitExpr.phantom :=
  c4_phantom_field ⟨.path false ["core", "marker", "PhantomData"], some .default, "x", true⟩ rfl

/-- C5: the constructor's visibility is the configured type-level visibility
when present, defaults to `pub` when absent, and an empty-string override
yields the inherited (private) visibility; `demo_impl` copies the parsed
option onto the generated function. -/
theorem c5_visibility :
    (∀ (pv : String → Option Visibility) (attrs : List Attribute),
        (∀ a ∈ attrs, a.meta.pathOf ≠ ["Demo"]) →
        DemoOptions.from_attributes pv attrs = .ok ⟨some Visibility.public⟩) ∧
    (∀ pv s v, pv s = some v →
        DemoOptions.from_attributes pv [demoVisAttr s] = .ok ⟨some v⟩) ∧
    (∀ pv, pv "" = some Visibility.inherited →
        DemoOptions.from_attributes pv [demoVisAttr ""] = .ok ⟨some Visibility.inherited⟩) ∧
    (∀ pt ast fields named variant options g,
        demo_impl pt ast fields named variant options = .ok g →
        g.vis = options.visibility) := by
  refine ⟨?_, ?_, ?_, ?_⟩
  · intro pv attrs h
    exact fromAttributesGo_skip pv attrs (some Visibility.public) h
  · intro pv s v h
    simp [DemoOptions.from_attributes, fromAttributesGo, demoVisAttr, Meta.pathOf,
      processTypeItems, h]
  · intro pv h
    simp [DemoOptions.from_attributes, fromAttributesGo, demoVisAttr, Meta.pathOf,
      processTypeItems, h]
  · intro pt ast fields named variant options g h
    cases hb : buildExts pt named 0 (fields.getD []) with
    | error e =>
      rw [demo_impl_err pt ast fields named variant options e hb] at h
      exact absurd h (by simp)
    | ok exts =>
      rw [demo_impl_ok pt ast fields named variant options exts hb] at h
      injection h with h
      subst h
      rfl

/-- C5 witness: with an external visibility parser sending `""` to the
inherited visibility, the empty-string override yields a private constructor,
and absent configuration yields `pub`. -/
theorem c5_witness :
    DemoOptions.from_attributes
        (fun s => if s = "" then some Visibility.inherited else none) [demoVisAttr ""]
      = .ok ⟨some Visibility.inherited⟩ ∧
    DemoOptions.from_attributes
        (fun s => if s = "" then some Visibility.inherited else none) []
      = .ok ⟨some Visibility.public⟩ :=
  ⟨c5_visibility.2.2.1 (fun s => if s = "" then some Visibility.inherited else none) rfl,
   c5_visibility.1 (fun s => if s = "" then some Visibility.inherited else none) []
     (fun a ha => absurd ha (List.not_mem_nil a))⟩

/-- C6 counterexample: two `Demo(..)` wrapper attributes on one field — the
first with an empty option list — are accepted without any error, and two
type-level `Demo(visibility = ..)` wrappers are likewise accepted, contrary
to the claim that more than one wrapper is always fatal. -/
theorem c6_counterexample :
    FieldAttr.parse (fun _ => none)
        [demoListAttr [], demoListAttr [Meta.path ["default"]]]
      = .ok (some FieldAttr.default) ∧
    DemoOptions.from_attributes (fun _ => some Visibility.public)
        [demoVisAttr "pub", demoVisAttr "pub"]
      = .ok ⟨some Visibility.public⟩ := ⟨rfl, rfl⟩

/-- C6 (amended): on a field, a `Demo(..)` wrapper is fatal exactly when an
earlier wrapper already yielded a configuration (a wrapper whose list yields
no configuration does not arm the check); at the type level multiple wrappers
are never rejected and the last visibility setting wins. -/
theorem c6_amended :
    (∀ pt (a : Attribute) items c,
        FieldAttr.parse pt [a] = .ok (some c) →
        FieldAttr.parse pt [a, demoListAttr items]
          = .error "Expected at most one #[Demo] attribute") ∧
    (∀ pv s1 s2 v1 v2, pv s1 = some v1 → pv s2 = some v2 →
        DemoOptions.from_attributes pv [demoVisAttr s1, demoVisAttr s2] = .ok ⟨some v2⟩) := by
  constructor
  · intro pt a items c h
    show parseGo pt none [a, demoListAttr items] = _
    rw [parseGo_cons pt none a [demoListAttr items]]
    rw [show parseGo pt none [a] = FieldAttr.parse pt [a] from rfl, h]
    simp [parseGo, demoListAttr, Meta.pathOf]
  · intro pv s1 s2 v1 v2 h1 h2
    simp [DemoOptions.from_attributes, fromAttributesGo, demoVisAttr, Meta.pathOf,
      processTypeItems, h1, h2]

/-- C6 witness: a `#[Demo(default)]` followed by any further `#[Demo(..)]`
wrapper aborts, and two type-level visibility wrappers resolve to the last. -/
theorem c6_witness :
    FieldAttr.parse (fun _ => none)
        [demoListAttr [Meta.path ["default"]], demoListAttr []]
      = .error "Expected at most one #[Demo] attribute" ∧
    DemoOptions.from_attributes
        (fun s => if s = "" then some Visibility.inherited else some Visibility.public)
        [demoVisAttr "pub", demoVisAttr ""]
      = .ok ⟨some Visibility.inherited⟩ :=
  ⟨c6_amended.1 (fun _ => none) (demoListAttr [Meta.path ["default"]]) [] FieldAttr.default rfl,
   c6_amended.2 (fun s => if s = "" then some Visibility.inherited else some Visibility.public)
     "pub" "" Visibility.public Visibility.inherited rfl rfl⟩

/-- C7 counterexample: at the type level, a `Demo(..)` wrapper containing the
unknown-for-types marker `default` is silently ignored (generation proceeds
with the default `pub` visibility), contrary to the claim that such content
is fatal for every subject type. -/
theorem c7_counterexample :
    DemoOptions.from_attributes (fun _ => none) [demoListAttr [Meta.path ["default"]]]
      = .ok ⟨some Visibility.public⟩ := rfl

/-- C7 (amended): on a field, a `Demo(..)` wrapper containing an unknown
marker or key, a list-valued entry, or a non-string-literal value is a fatal
parse error (the first two name the offending construct, the third is a
generic message); at the type level such contents are silently ignored. -/
theorem c7_amended :
    (∀ pt p, ¬p = "default" → ¬p = "into" →
        FieldAttr.parse pt [demoListAttr [Meta.path [p]]]
          = .error ("Invalid #[Demo] attribute: #[Demo(" ++ p ++ ")]")) ∧
    (∀ pt k s ts, pt s = some ts → ¬k = "into_iter" → ¬k = "value" →
        FieldAttr.parse pt [demoListAttr [Meta.nameValue [k] (.lit (.str s))]]
          = .error ("Invalid #[Demo] attribute: #[Demo(" ++ k ++ " = ..)]")) ∧
    (∀ pt k args, FieldAttr.parse pt [demoListAttr [Meta.list [k] args]]
          = .error ("Invalid #[Demo] attribute: #[Demo(" ++ k ++ "(..))]")) ∧
    (∀ pt k (v : RustExpr), (∀ s, v ≠ .lit (.str s)) →
        FieldAttr.parse pt [demoListAttr [Meta.nameValue [k] v]]
          = .error "Non-string literal value in #[Demo] attribute") ∧
    (∀ pv p, DemoOptions.from_attributes pv [demoListAttr [Meta.path [p]]]
          = .ok ⟨some Visibility.public⟩) := by
  refine ⟨?_, ?_, ?_, ?_, ?_⟩
  · intro pt p h1 h2
    simp [FieldAttr.parse, parseGo, demoListAttr, Meta.pathOf, parseDemoItems, h1, h2,
      path_to_string]
  · intro pt k s ts hpt h1 h2
    simp [FieldAttr.parse, parseGo, demoListAttr, Meta.pathOf, parseDemoItems, hpt, h1, h2,
      path_to_string]
  · intro pt k args
    simp [FieldAttr.parse, parseGo, demoListAttr, Meta.pathOf, parseDemoItems, path_to_string]
  · intro pt k v hv
    cases v with
    | lit l =>
      cases l with
      | str s => exact absurd rfl (hv s)
      | other d =>
        simp [FieldAttr.parse, parseGo, demoListAttr, Meta.pathOf, parseDemoItems]
    | other d =>
      simp [FieldAttr.parse, parseGo, demoListAttr, Meta.pathOf, parseDemoItems]
  · intro pv p
    simp [DemoOptions.from_attributes, fromAttributesGo, demoListAttr, Meta.pathOf,
      processTypeItems]

/-- C7 witness: `#[Demo(nope)]` on a field aborts naming `nope`; the same
wrapper on the type is ignored. -/
theorem c7_witness :
    FieldAttr.parse (fun _ => none) [demoListAttr [Meta.path ["nope"]]]
      = .error "Invalid #[Demo] attribute: #[Demo(nope)]" ∧
    DemoOptions.from_attributes (fun _ => none) [demoListAttr [Meta.path ["whatever"]]]
      = .ok ⟨some Visibility.public⟩ :=
  ⟨c7_amended.1 (fun _ => none) "nope" (by decide) (by decide),
   c7_amended.2.2.2.2 (fun _ => none) "whatever"⟩

/-- C8 counterexample: a one-variant enum with no discriminant still fails
when a variant field carries an ill-formed `#[Demo]` attribute, so generation
does not fail *exactly* when the enum is empty or discriminated. -/
theorem c8_counterexample :
    demo_for_enum (fun _ => none) ⟨"E", [], ""⟩ [badAttrVariant] ⟨some Visibility.public⟩
      = .error "Invalid #[Demo] attribute: #[Demo(nope)]" ∧
    ([badAttrVariant] : List Variant).isEmpty = false ∧
    badAttrVariant.hasDiscriminant = false := ⟨rfl, rfl, rfl⟩

/-- C8 (amended): an empty enum is a fatal error; whenever enum generation
succeeds the enum was nonempty, no variant carries a discriminant, and
exactly one constructor is emitted per variant (the per-variant result, in
order). -/
theorem c8_amended :
    (∀ pt ast options,
        demo_for_enum pt ast [] options
          = .error "#[derive(Demo)] cannot be implemented for enums with zero variants") ∧
    (∀ pt ast vs options gs,
        demo_for_enum pt ast vs options = .ok gs →
        vs.isEmpty = false ∧ gs.length = vs.length ∧
          ∀ k (hk : k < vs.length) (hk' : k < gs.length),
            (vs.get ⟨k, hk⟩).hasDiscriminant = false ∧
            demo_for_struct pt ast ((vs.get ⟨k, hk⟩).fields) (some ((vs.get ⟨k, hk⟩).ident))
                options = .ok (gs.get ⟨k, hk'⟩)) := by
  constructor
  · intro pt ast options
    rfl
  · intro pt ast vs options gs h
    cases vs with
    | nil => simp [demo_for_enum] at h
    | cons v rest =>
      have hb : buildEnum pt ast options (v :: rest) = .ok gs := by
        simpa [demo_for_enum] using h
      exact ⟨rfl, buildEnum_ok pt ast options (v :: rest) gs hb⟩

/-- C8 witness: a one-variant unit enum generates exactly its one
constructor. -/
theorem c8_witness :
    unitVariant.hasDiscriminant = false ∧
    demo_for_struct (fun _ => none) ⟨"E", [], ""⟩ unitVariant.fields (some unitVariant.ident)
        ⟨some Visibility.public⟩
      = .ok
        { typeName := "E", generics := "", doc := "Constructs a demo `E::A`.",
          lintAttrs := [], vis := some Visibility.public, fnName := "demo_a",
          args := [], qual := some "A", body := InitBody.unitBody } :=
  (c8_amended.2 (fun _ => none) ⟨"E", [], ""⟩ [unitVariant] ⟨some Visibility.public⟩
    [{ typeName := "E", generics := "", doc := "Constructs a demo `E::A`.",
       lintAttrs := [], vis := some Visibility.public, fnName := "demo_a",
       args := [], qual := some "A", body := InitBody.unitBody }] rfl).2.2 0
    (by decide) (by decide)

/-- C9 counterexample: the synthesized identifier of the first positional
field is `f0`, not `field0`, so positional fields are not named
`field<index>`. -/
theorem c9_counterexample :
    (FieldExt.new (fun _ => none) ⟨none, .other "i32", []⟩ 0 false).map FieldExt.ident
      = .ok "f0" ∧ ("f0" : String) ≠ "field0" := ⟨rfl, by decide⟩

/-- C9 (amended): each positional field is synthesized the name `f<index>`,
in declaration order starting at 0, and every generated parameter uses its
field's synthesized identifier. -/
theorem c9_amended :
    (∀ pt f idx ext, FieldExt.new pt f idx false = .ok ext →
        ext.ident = "f" ++ toString idx ∧ ext.named = false) ∧
    (∀ (fe : FieldExt) a, FieldExt.as_arg fe = some a → a.ident = fe.ident) := by
  constructor
  · intro pt f idx ext h
    unfold FieldExt.new at h
    cases hp : FieldAttr.parse pt f.attrs with
    | error e =>
      rw [hp] at h
      exact absurd h (by simp)
    | ok attr =>
      rw [hp] at h
      simp only [Bool.false_eq_true, if_false, Except.ok.injEq] at h
      rw [← h]
      exact ⟨rfl, rfl⟩
  · intro fe a h
    cases hph : fe.is_phantom_data with
    | true => simp [FieldExt.as_arg, hph] at h
    | false =>
      cases hat : fe.attr with
      | none =>
        simp [FieldExt.as_arg, hph, hat] at h
        rw [← h]
      | some fa =>
        cases fa with
        | default => simp [FieldExt.as_arg, hph, hat] at h
        | value s => simp [FieldExt.as_arg, hph, hat] at h
        | into =>
          simp [FieldExt.as_arg, hph, hat] at h
          rw [← h]
        | intoIter s =>
          simp [FieldExt.as_arg, hph, hat] at h
          rw [← h]

/-- C9 witness: the positional field at index 3 gets identifier `f3`. -/
theorem c9_witness :
    FieldExt.ident ⟨.other "i32", none, "f3", false⟩ = "f" ++ toString 3 ∧
    FieldExt.named ⟨.other "i32", none, "f3", false⟩ = false :=
  c9_amended.1 (fun _ => none) ⟨none, .other "i32", []⟩ 3
    ⟨.other "i32", none, "f3", false⟩ rfl

/-- C10: a single `Demo(..)` wrapper holding several options parses without
error and the last listed well-formed option wins; the at-most-one error is
raised only when a `Demo(..)` wrapper follows one that already yielded a
configuration (a leading empty wrapper is transparent). -/
theorem c10_single_wrapper :
    (∀ pt, FieldAttr.parse pt [demoListAttr [Meta.path ["default"], Meta.path ["into"]]]
        = .ok (some FieldAttr.into)) ∧
    (∀ pt (res : Option FieldAttr) (items : List Meta) lastIt,
        items.getLast? = some lastIt →
        (∀ it ∈ items, (itemConfig pt it).isSome = true) →
        parseDemoItems pt res items = .ok (itemConfig pt lastIt)) ∧
    (∀ pt rest, FieldAttr.parse pt (demoListAttr [] :: rest) = FieldAttr.parse pt rest) ∧
    (∀ pt items c rest,
        FieldAttr.parse pt [demoListAttr items] = .ok (some c) →
        FieldAttr.parse pt [demoListAttr items, demoListAttr rest]
          = .error "Expected at most one #[Demo] attribute") := by
  refine ⟨?_, ?_, ?_, ?_⟩
  · intro pt
    rfl
  · intro pt res items
    revert res
    induction items with
    | nil => intro res lastIt h; simp at h
    | cons it rest ih =>
      intro res lastIt hlast hall
      cases rest with
      | nil =>
        simp only [List.getLast?_singleton, Option.some.injEq] at hlast
        subst hlast
        rw [parseDemoItems_step pt res it [] (hall it (List.mem_singleton_self it))]
        rfl
      | cons it2 rest2 =>
        have hlast2 : (it2 :: rest2).getLast? = some lastIt := by
          rw [List.getLast?_cons_cons] at hlast
          exact hlast
        rw [parseDemoItems_step pt res it (it2 :: rest2)
          (hall it (List.mem_cons_self it (it2 :: rest2)))]
        exact ih (itemConfig pt it) lastIt hlast2
          (fun x hx => hall x (List.mem_cons_of_mem it hx))
  · intro pt rest
    show parseGo pt none (demoListAttr [] :: rest) = parseGo pt none rest
    rw [parseGo_cons pt none (demoListAttr []) rest]
    rfl
  · intro pt items c rest h
    show parseGo pt none [demoListAttr items, demoListAttr rest] = _
    rw [parseGo_cons pt none (demoListAttr items) [demoListAttr rest]]
    rw [show parseGo pt none [demoListAttr items] = FieldAttr.parse pt [demoListAttr items]
      from rfl, h]
    simp [parseGo, demoListAttr, Meta.pathOf]

/-- C10 witness: `#[Demo(default, value = "1 + 2")]` parses to the last
option, and a second wrapper after a configuring one aborts. -/
theorem c10_witness :
    parseDemoItems (fun s => some s) none
        [Meta.path ["default"], Meta.nameValue ["value"] (RustExpr.lit (Lit.str "1 + 2"))]
      = .ok (some (FieldAttr.value "1 + 2")) ∧
    FieldAttr.parse (fun _ => none)
        [demoListAttr [Meta.path ["into"]], demoListAttr []]
      = .error "Expected at most one #[Demo] attribute" :=
  ⟨c10_single_wrapper.2.1 (fun s => some s) none
      [Meta.path ["default"], Meta.nameValue ["value"] (RustExpr.lit (Lit.str "1 + 2"))]
      (Meta.nameValue ["value"] (RustExpr.lit (Lit.str "1 + 2"))) rfl (by decide),
   c10_single_wrapper.2.2.2 (fun _ => none) [Meta.path ["into"]] FieldAttr.into [] rfl⟩

end DeriveDemo
